import Mathlib

/-!
# A verification model of the gem5 `WorkQueue` component

This file gives a shallow embedding of `src/mem/work_queue.hh`: a dual-ported,
timing-accurate bounded work queue with a deferred-delivery stage and a
retry/backpressure protocol.

The repository ships only the class declaration (`work_queue.hh`); the method
bodies (`work_queue.cc`) are not part of the source tree.  The state record
below therefore mirrors the declared data members of the class exactly
(`workQ`, `size`, `latency`, `packetQueue`, `isBusy`/`isEmpty`/`isFull`,
`retryPop`/`retryPush`/`retryResp`, `pendingDelete`, `pushes`/`pops`), while
the transition functions are modelled from the specification's description of
the protocol (submit / release / deliver / resumeDelivery / drain).
-/

namespace WorkQueue

/-- The two port roles, named as in the source enum `WorkQueuePort_e`. -/
inductive WorkQueuePort_e
  | PopPortType
  | PushPortType
deriving DecidableEq, Repr

/-- A response handed to a port's peer: a push acknowledgement, or the popped
32-bit token for a pop.  Work tokens are opaque 32-bit values (`uint32_t` in
the source), modelled as naturals reduced modulo `2 ^ 32`. -/
inductive Resp
  | pushOk
  | popData (token : Nat)
deriving DecidableEq, Repr

/-- A deferred packet stores a response along with its scheduled transmission
time and the originating port role (source class `DeferredPacket`). -/
structure DeferredPacket where
  tick : Nat
  pkt : Resp
  portType : WorkQueuePort_e
deriving DecidableEq, Repr

/-- A timing request arriving at one of the two ports: a push carrying one
token, or a payload-free pop. -/
inductive Req
  | pushReq (token : Nat)
  | popReq
deriving DecidableEq, Repr

/-- The role a request is addressed to. -/
def Req.portType : Req → WorkQueuePort_e
  | .pushReq _ => .PushPortType
  | .popReq => .PopPortType

/-- The state of the work queue component, mirroring the data members declared
in `work_queue.hh`: the bounded FIFO `workQ`, its capacity `size`, the fixed
`latency`, the unbounded deferred-delivery stage `packetQueue`, the cached
busy/empty/full flags, the per-role retry bookkeeping flags, the scheduled
release time (the `releaseEvent`), the retained-response buffer
`pendingDelete` (a `std::unique_ptr`, hence at most one packet), and the
push/pop statistics counters. -/
structure WQ where
  workQ : List Nat
  size : Nat
  latency : Nat
  packetQueue : List DeferredPacket
  isBusy : Bool
  isEmpty : Bool
  isFull : Bool
  retryPop : Bool
  retryPush : Bool
  retryResp : Bool
  releaseAt : Option Nat
  pendingDelete : Option Resp
  pushes : Nat
  pops : Nat
deriving DecidableEq, Repr

/-- Fatal protocol violations: the conditions the component treats as
assertion failures rather than recoverable backpressure. -/
inductive Violation
  | overlappingRetry
  | unsolicitedResume
  | emptyDeliver
deriving DecidableEq, Repr

/-- Modelled from the spec (§4.1, the FIFO-store bodies are not in the
source): `tryPush` rejects iff the queue is full; on success it appends the
token (reduced to 32 bits, as `workQ` stores `uint32_t`), bumps the `pushes`
counter and refreshes the cached flags. -/
def tryPush (s : WQ) (t : Nat) : Option WQ :=
  if s.isFull then none
  else
    let q := s.workQ ++ [t % 2 ^ 32]
    some { s with workQ := q, pushes := s.pushes + 1,
                  isEmpty := false, isFull := decide (q.length = s.size) }

/-- Modelled from the spec (§4.1): `tryPop` rejects iff the queue is empty;
on success it removes and returns the oldest token, bumps the `pops` counter
and refreshes the cached flags. -/
def tryPop (s : WQ) : Option (Nat × WQ) :=
  if s.isEmpty then none
  else
    match s.workQ with
    | [] => none
    | t :: rest =>
        some (t, { s with workQ := rest, pops := s.pops + 1,
                          isFull := false, isEmpty := decide (rest = []) })

/-- Whether the given role currently holds an `AwaitingFreeSlot` condition
(the source's `retryPush` / `retryPop` flags). -/
def awaitingFreeSlot (s : WQ) (r : WorkQueuePort_e) : Bool :=
  match r with
  | .PushPortType => s.retryPush
  | .PopPortType => s.retryPop

/-- Whether the given role currently holds an `AwaitingRespAck` condition:
`retryResp` is set and the pending (head) staged entry originated at that
role. -/
def respPendingFor (s : WQ) (r : WorkQueuePort_e) : Bool :=
  s.retryResp &&
    (match s.packetQueue with
     | [] => false
     | d :: _ => d.portType == r)

/-- Modelled from the spec (§4.3, §5): record an `AwaitingFreeSlot` condition
for a role.  A second overlapping backpressure condition for the same role is
a protocol violation (fatal assertion), not a queueing case. -/
def setAwaitingFreeSlot (s : WQ) (r : WorkQueuePort_e) : Except Violation WQ :=
  if awaitingFreeSlot s r || respPendingFor s r then .error .overlappingRetry
  else
    match r with
    | .PushPortType => .ok { s with retryPush := true }
    | .PopPortType => .ok { s with retryPop := true }

/-- The outcome of a timing request, as seen by the submitting peer. -/
inductive SubmitResult
  | accepted
  | rejected
deriving DecidableEq, Repr

/-- Modelled from the spec (§4.3 `submit`, §7, §8; the body of
`recvTimingReq` is not in the source): if the component is busy (processing
any request, on either role), reject and record `AwaitingFreeSlot` for the
submitting role.  Otherwise this is an access: the previously retained
response is freed (returned in the third component), the FIFO operation runs
synchronously; if it succeeds the component becomes busy, the response is
staged with due time `now + latency` and a release callback is scheduled at
that time; if the FIFO rejects (full push / empty pop, §7 and Scenarios A and
C) the request is rejected and `AwaitingFreeSlot` is recorded. -/
def submit (s : WQ) (now : Nat) (req : Req) :
    Except Violation (WQ × SubmitResult × List Resp) :=
  if s.isBusy then
    (setAwaitingFreeSlot s req.portType).map (fun s' => (s', .rejected, []))
  else
    let freed := s.pendingDelete.toList
    let s0 : WQ := { s with pendingDelete := none }
    match req with
    | .pushReq t =>
      match tryPush s0 t with
      | none =>
          (setAwaitingFreeSlot s0 .PushPortType).map
            (fun s' => (s', .rejected, freed))
      | some s1 =>
          .ok ({ s1 with isBusy := true,
                         packetQueue := s1.packetQueue ++
                           [⟨now + s1.latency, .pushOk, .PushPortType⟩],
                         releaseAt := some (now + s1.latency) },
               .accepted, freed)
    | .popReq =>
      match tryPop s0 with
      | none =>
          (setAwaitingFreeSlot s0 .PopPortType).map
            (fun s' => (s', .rejected, freed))
      | some (t, s1) =>
          .ok ({ s1 with isBusy := true,
                         packetQueue := s1.packetQueue ++
                           [⟨now + s1.latency, .popData t, .PopPortType⟩],
                         releaseAt := some (now + s1.latency) },
               .accepted, freed)

/-- Modelled from the spec (§4.3 `release`; the body is not in the source):
fires at the scheduled due time, returns the component to idle, and for each
role holding `AwaitingFreeSlot`, clears it and emits a retry notification to
that port's peer (the returned list). -/
def release (s : WQ) : WQ × List WorkQueuePort_e :=
  ({ s with isBusy := false, retryPop := false, retryPush := false,
            releaseAt := none },
   (if s.retryPop then [WorkQueuePort_e.PopPortType] else []) ++
     (if s.retryPush then [WorkQueuePort_e.PushPortType] else []))

/-- Modelled from the spec (§4.3 `deliver`): attempt to hand the head staged
entry to its destination port's peer.  On acceptance the entry leaves the
stage and the retained-response bookkeeping runs: the previously retained
response is freed (third component) and the just-sent response is retained.
If the peer is not ready, set `AwaitingRespAck` and keep the entry pending; a
resulting second overlapping per-role condition is fatal (§5).  Delivering
with an empty stage is an assertion failure. -/
def deliverAttempt (s : WQ) (peerReady : Bool) :
    Except Violation (WQ × Option DeferredPacket × List Resp) :=
  match s.packetQueue with
  | [] => .error .emptyDeliver
  | d :: rest =>
    if peerReady then
      .ok ({ s with packetQueue := rest, retryResp := false,
                    pendingDelete := some d.pkt },
           some d, s.pendingDelete.toList)
    else
      if awaitingFreeSlot s d.portType then .error .overlappingRetry
      else .ok ({ s with retryResp := true }, none, [])

/-- Modelled from the spec (§4.3; the body of `dequeue` is not in the
source): the scheduled delivery event.  It only fires while no
`AwaitingRespAck` is outstanding (the retry path goes through
`recvRespRetry`). -/
def dequeue (s : WQ) (peerReady : Bool) :
    Except Violation (WQ × Option DeferredPacket × List Resp) :=
  if s.retryResp then .error .overlappingRetry
  else deliverAttempt s peerReady

/-- Modelled from the spec (§4.3 `resumeDelivery`; the body of
`recvRespRetry` is not in the source): requires `AwaitingRespAck` to be
pending — calling it with nothing pending is a fatal protocol violation —
then clears it and retries delivery with the identical pending entry. -/
def recvRespRetry (s : WQ) (peerReady : Bool) :
    Except Violation (WQ × Option DeferredPacket × List Resp) :=
  if s.retryResp = false then .error .unsolicitedResume
  else deliverAttempt { s with retryResp := false } peerReady

/-- The two answers of the drain/quiesce query. -/
inductive DrainState
  | Drained
  | Draining
deriving DecidableEq, Repr

/-- Modelled from the spec (§4.5; the body of `drain` is not in the source):
report `Drained` iff the deferred-delivery stage is empty and the retry state
machine is idle for both roles (not busy, no `AwaitingFreeSlot` on either
role, no `AwaitingRespAck`). -/
def drain (s : WQ) : DrainState :=
  if s.packetQueue.isEmpty && !s.isBusy && !s.retryPop && !s.retryPush
      && !s.retryResp
  then .Drained else .Draining

/-- An event arriving at the component: a timing request at a given simulated
time, the release callback, the delivery callback (with the peer's readiness
as the environment's input), or a peer-initiated retry-resume. -/
inductive Event
  | submitE (now : Nat) (req : Req)
  | releaseE
  | dequeueE (peerReady : Bool)
  | respRetryE (peerReady : Bool)
deriving DecidableEq, Repr

/-- An observable notification emitted by a transition: a retry signal to a
role's peer, a delivered staged entry, or a freed (previously retained)
response. -/
inductive Notif
  | retryN (r : WorkQueuePort_e)
  | deliveredN (d : DeferredPacket)
  | freedN (p : Resp)
deriving DecidableEq, Repr

/-- One transition of the component on an event, collecting the emitted
notifications. -/
def stepN (s : WQ) (e : Event) : Except Violation (WQ × List Notif) :=
  match e with
  | .submitE now req =>
      (submit s now req).map
        (fun o => (o.1, o.2.2.map Notif.freedN))
  | .releaseE =>
      .ok ((release s).1, (release s).2.map Notif.retryN)
  | .dequeueE pr =>
      (dequeue s pr).map
        (fun o => (o.1, o.2.1.toList.map Notif.deliveredN ++
                        o.2.2.map Notif.freedN))
  | .respRetryE pr =>
      (recvRespRetry s pr).map
        (fun o => (o.1, o.2.1.toList.map Notif.deliveredN ++
                        o.2.2.map Notif.freedN))

/-- Run a sequence of events, concatenating the emitted notifications; a
fatal violation aborts the run. -/
def runN (s : WQ) : List Event → Except Violation (WQ × List Notif)
  | [] => .ok (s, [])
  | e :: es =>
    match stepN s e with
    | .error v => .error v
    | .ok (s', ns) =>
      match runN s' es with
      | .error v => .error v
      | .ok (s'', ns') => .ok (s'', ns ++ ns')

/-- The freshly constructed component: empty FIFO of the configured capacity,
empty stage, idle, no retry conditions, nothing retained, zeroed counters. -/
def init (size latency : Nat) : WQ :=
  { workQ := [], size := size, latency := latency, packetQueue := [],
    isBusy := false, isEmpty := true, isFull := decide (0 = size),
    retryPop := false, retryPush := false, retryResp := false,
    releaseAt := none, pendingDelete := none, pushes := 0, pops := 0 }

/-- A state is reachable when some violation-free run from some freshly
constructed component ends in it. -/
def Reachable (s : WQ) : Prop :=
  ∃ size latency es out, runN (init size latency) es = .ok (s, out)

/-- The capacity/flag invariant of the bounded FIFO: the length never exceeds
the capacity and the cached `isEmpty` / `isFull` flags agree with the
length. -/
def flagInv (s : WQ) : Prop :=
  s.workQ.length ≤ s.size ∧
    (s.isEmpty = true ↔ s.workQ.length = 0) ∧
    (s.isFull = true ↔ s.workQ.length = s.size)

/-- `AwaitingRespAck` only ever holds with the failed entry still pending. -/
def respInv (s : WQ) : Prop :=
  s.retryResp = true → s.packetQueue ≠ []

/-- Per port role, at most one unacknowledged backpressure condition. -/
def roleInv (s : WQ) : Prop :=
  ∀ r, ¬(awaitingFreeSlot s r = true ∧ respPendingFor s r = true)

/-- The conjunction of the component's state invariants. -/
def Inv (s : WQ) : Prop :=
  flagInv s ∧ respInv s ∧ roleInv s

/-- Whether the FIFO operation demanded by a request can succeed in the given
state: a push needs the queue not full, a pop needs it not empty. -/
def eligibleFifo (s : WQ) : Req → Bool
  | .pushReq _ => !s.isFull
  | .popReq => !s.isEmpty && !s.workQ.isEmpty

/-- Modelled from the spec (§5, §8: every request submitted only while the
state machine is idle): a driver for the all-idle scenario.  Each request is
submitted at its time; the release callback fires at its due time; delivery
is then attempted with a ready peer, all before the next request arrives.
Returns the final state and the delivered entries in delivery order, or
`none` if a submission is rejected or any step faults. -/
def runIdleSeq (s : WQ) : List (Nat × Req) → Option (WQ × List DeferredPacket)
  | [] => some (s, [])
  | (t, req) :: rest =>
    match submit s t req with
    | .ok (s1, .accepted, _) =>
      match dequeue (release s1).1 true with
      | .ok (s3, some d, _) =>
        match runIdleSeq s3 rest with
        | some (s4, ds) => some (s4, d :: ds)
        | none => none
      | _ => none
    | _ => none

/-- A concrete state with a full queue and a retained response, as reached
after one accepted and delivered push on a capacity-1 queue. -/
def exampleFull : WQ :=
  { workQ := [42], size := 1, latency := 5, packetQueue := [],
    isBusy := false, isEmpty := false, isFull := true,
    retryPop := false, retryPush := false, retryResp := false,
    releaseAt := none, pendingDelete := some .pushOk, pushes := 1, pops := 0 }

/-- A concrete state awaiting a response acknowledgement: delivery of the
staged push acknowledgement failed once and the entry is still pending. -/
def exampleAwaitAck : WQ :=
  { workQ := [7], size := 1, latency := 5,
    packetQueue := [⟨5, .pushOk, .PushPortType⟩],
    isBusy := false, isEmpty := false, isFull := true,
    retryPop := false, retryPush := false, retryResp := true,
    releaseAt := none, pendingDelete := none, pushes := 1, pops := 0 }

theorem tryPush_none_iff {s : WQ} {t : Nat} :
    tryPush s t = none ↔ s.isFull = true := by
  unfold tryPush
  split
  · next h => simp [h]
  · next h => simp [h]

theorem tryPush_some_shape {s : WQ} {t : Nat} {s1 : WQ}
    (h : tryPush s t = some s1) :
    s.isFull = false ∧
      s1 = { s with workQ := s.workQ ++ [t % 2 ^ 32], pushes := s.pushes + 1,
                    isEmpty := false,
                    isFull := decide ((s.workQ ++ [t % 2 ^ 32]).length = s.size) } := by
  unfold tryPush at h
  split at h
  · simp at h
  · next hf =>
    refine ⟨by simpa using hf, ?_⟩
    simpa using h.symm

theorem tryPop_none_iff {s : WQ} :
    tryPop s = none ↔ (s.isEmpty = true ∨ s.workQ = []) := by
  unfold tryPop
  split
  · next h => simp [h]
  · next h =>
    cases hq : s.workQ with
    | nil => simp [h, hq]
    | cons a l => simp [h, hq]

theorem tryPop_some_shape {s : WQ} {t : Nat} {s1 : WQ}
    (h : tryPop s = some (t, s1)) :
    s.isEmpty = false ∧
      ∃ rest, s.workQ = t :: rest ∧
        s1 = { s with workQ := rest, pops := s.pops + 1,
                      isFull := false, isEmpty := decide (rest = []) } := by
  unfold tryPop at h
  split at h
  · simp at h
  · next he =>
    cases hq : s.workQ with
    | nil => rw [hq] at h; simp at h
    | cons a l =>
      rw [hq] at h
      simp only [Option.some.injEq, Prod.mk.injEq] at h
      exact ⟨by simpa using he, l, by rw [← h.1], h.2.symm⟩

theorem setAwait_ok_shape {s : WQ} {r : WorkQueuePort_e} {s1 : WQ}
    (h : setAwaitingFreeSlot s r = .ok s1) :
    awaitingFreeSlot s r = false ∧ respPendingFor s r = false ∧
      ((r = .PushPortType ∧ s1 = { s with retryPush := true }) ∨
       (r = .PopPortType ∧ s1 = { s with retryPop := true })) := by
  unfold setAwaitingFreeSlot at h
  split at h
  · simp at h
  · next hc =>
    simp only [Bool.or_eq_true, not_or, Bool.not_eq_true] at hc
    refine ⟨hc.1, hc.2, ?_⟩
    cases r with
    | PushPortType =>
      left
      simp only [Except.ok.injEq] at h
      exact ⟨rfl, h.symm⟩
    | PopPortType =>
      right
      simp only [Except.ok.injEq] at h
      exact ⟨rfl, h.symm⟩

theorem setAwait_error_of {s : WQ} {r : WorkQueuePort_e}
    (h : awaitingFreeSlot s r = true ∨ respPendingFor s r = true) :
    setAwaitingFreeSlot s r = .error .overlappingRetry := by
  unfold setAwaitingFreeSlot
  split
  · rfl
  · next hc =>
    exfalso
    rcases h with h | h <;> simp [h] at hc

theorem flagInv_tryPush {s : WQ} {t : Nat} {s1 : WQ}
    (hF : flagInv s) (h : tryPush s t = some s1) : flagInv s1 := by
  obtain ⟨hful, hs1⟩ := tryPush_some_shape h
  obtain ⟨hle, hE, hFl⟩ := hF
  have hne : s.workQ.length ≠ s.size := by
    intro hc
    exact absurd (hFl.mpr hc) (by simp [hful])
  subst hs1
  refine ⟨?_, ?_, ?_⟩
  · simp only [List.length_append, List.length_cons, List.length_nil]
    omega
  · simp
  · simp

theorem flagInv_tryPop {s : WQ} {t : Nat} {s1 : WQ}
    (hF : flagInv s) (h : tryPop s = some (t, s1)) : flagInv s1 := by
  obtain ⟨hemp, rest, hq, hs1⟩ := tryPop_some_shape h
  obtain ⟨hle, hE, hFl⟩ := hF
  rw [hq] at hle
  have hne : rest.length ≠ s.size := by
    simp only [List.length_cons] at hle
    omega
  subst hs1
  refine ⟨?_, ?_, ?_⟩
  · simp only [List.length_cons] at hle ⊢
    omega
  · simp [List.length_eq_zero]
  · simp [hne]

theorem inv_setAwait {s s1 : WQ} {r : WorkQueuePort_e}
    (hI : Inv s) (h : setAwaitingFreeSlot s r = .ok s1) : Inv s1 := by
  obtain ⟨hfree, hresp, hcase⟩ := setAwait_ok_shape h
  obtain ⟨hF, hR, hRole⟩ := hI
  rcases hcase with ⟨hr, hs1⟩ | ⟨hr, hs1⟩ <;> subst hr <;> subst hs1
  · refine ⟨hF, hR, ?_⟩
    intro r2 hc
    cases r2 with
    | PushPortType =>
      have h2 : respPendingFor s .PushPortType = true := hc.2
      rw [hresp] at h2
      cases h2
    | PopPortType => exact hRole .PopPortType ⟨hc.1, hc.2⟩
  · refine ⟨hF, hR, ?_⟩
    intro r2 hc
    cases r2 with
    | PushPortType => exact hRole .PushPortType ⟨hc.1, hc.2⟩
    | PopPortType =>
      have h2 : respPendingFor s .PopPortType = true := hc.2
      rw [hresp] at h2
      cases h2

theorem inv_staged {s1 : WQ} (hF : flagInv s1) (hR : respInv s1)
    (hRole : roleInv s1) (e : DeferredPacket) (b : Bool) (o : Option Nat) :
    Inv { s1 with isBusy := b, packetQueue := s1.packetQueue ++ [e],
                  releaseAt := o } := by
  refine ⟨hF, ?_, ?_⟩
  · intro _
    simp
  · intro r2 hc
    have h2 := hc.2
    simp only [respPendingFor, Bool.and_eq_true] at h2
    obtain ⟨hrr, hmatch⟩ := h2
    have hrr' : s1.retryResp = true := hrr
    have hne := hR hrr'
    cases hpq : s1.packetQueue with
    | nil => exact hne hpq
    | cons d rest =>
      refine hRole r2 ⟨hc.1, ?_⟩
      simp only [respPendingFor, Bool.and_eq_true]
      refine ⟨hrr', ?_⟩
      rw [hpq]
      rw [hpq] at hmatch
      simpa using hmatch

theorem inv_submit {s s' : WQ} {now : Nat} {req : Req} {r : SubmitResult}
    {f : List Resp} (hI : Inv s) (h : submit s now req = .ok (s', r, f)) :
    Inv s' := by
  unfold submit at h
  by_cases hb : s.isBusy = true
  · rw [if_pos hb] at h
    cases hset : setAwaitingFreeSlot s req.portType with
    | error v => rw [hset] at h; simp [Except.map] at h
    | ok s1 =>
      rw [hset] at h
      simp only [Except.map, Except.ok.injEq, Prod.mk.injEq] at h
      obtain ⟨h1, -, -⟩ := h
      subst h1
      exact inv_setAwait hI hset
  · rw [if_neg hb] at h
    have hI0 : Inv { s with pendingDelete := none } := hI
    cases req with
    | pushReq t =>
      dsimp only at h
      cases htp : tryPush { s with pendingDelete := none } t with
      | none =>
        rw [htp] at h
        cases hset : setAwaitingFreeSlot { s with pendingDelete := none }
            .PushPortType with
        | error v => rw [hset] at h; simp [Except.map] at h
        | ok s1 =>
          rw [hset] at h
          simp only [Except.map, Except.ok.injEq, Prod.mk.injEq] at h
          obtain ⟨h1, -, -⟩ := h
          subst h1
          exact inv_setAwait hI0 hset
      | some s1 =>
        rw [htp] at h
        dsimp only at h
        simp only [Except.ok.injEq, Prod.mk.injEq] at h
        obtain ⟨h1, -, -⟩ := h
        subst h1
        have hF1 : flagInv s1 := flagInv_tryPush hI0.1 htp
        obtain ⟨-, hs1⟩ := tryPush_some_shape htp
        subst hs1
        exact inv_staged hF1 hI0.2.1 hI0.2.2 _ _ _
    | popReq =>
      dsimp only at h
      cases htp : tryPop { s with pendingDelete := none } with
      | none =>
        rw [htp] at h
        cases hset : setAwaitingFreeSlot { s with pendingDelete := none }
            .PopPortType with
        | error v => rw [hset] at h; simp [Except.map] at h
        | ok s1 =>
          rw [hset] at h
          simp only [Except.map, Except.ok.injEq, Prod.mk.injEq] at h
          obtain ⟨h1, -, -⟩ := h
          subst h1
          exact inv_setAwait hI0 hset
      | some ts1 =>
        obtain ⟨t, s1⟩ := ts1
        rw [htp] at h
        dsimp only at h
        simp only [Except.ok.injEq, Prod.mk.injEq] at h
        obtain ⟨h1, -, -⟩ := h
        subst h1
        have hF1 : flagInv s1 := flagInv_tryPop hI0.1 htp
        obtain ⟨-, rest, -, hs1⟩ := tryPop_some_shape htp
        subst hs1
        exact inv_staged hF1 hI0.2.1 hI0.2.2 _ _ _

theorem inv_release {s : WQ} (hI : Inv s) : Inv (release s).1 := by
  refine ⟨hI.1, hI.2.1, ?_⟩
  intro r2 hc
  have h1 := hc.1
  cases r2 <;> simp [awaitingFreeSlot, release] at h1

theorem inv_deliverAttempt {s s' : WQ} {pr : Bool} {d : Option DeferredPacket}
    {f : List Resp} (hI : Inv s) (h : deliverAttempt s pr = .ok (s', d, f)) :
    Inv s' := by
  unfold deliverAttempt at h
  cases hpq : s.packetQueue with
  | nil => rw [hpq] at h; simp at h
  | cons d0 rest =>
    rw [hpq] at h
    dsimp only at h
    by_cases hpr : pr = true
    · rw [if_pos hpr] at h
      simp only [Except.ok.injEq, Prod.mk.injEq] at h
      obtain ⟨h1, -, -⟩ := h
      subst h1
      refine ⟨hI.1, ?_, ?_⟩
      · intro hc
        cases hc
      · intro r2 hc
        have h2 := hc.2
        simp [respPendingFor] at h2
    · rw [if_neg hpr] at h
      by_cases hfs : awaitingFreeSlot s d0.portType = true
      · rw [if_pos hfs] at h
        simp at h
      · rw [if_neg hfs] at h
        simp only [Except.ok.injEq, Prod.mk.injEq] at h
        obtain ⟨h1, -, -⟩ := h
        subst h1
        refine ⟨hI.1, ?_, ?_⟩
        · intro _
          simp [hpq]
        · intro r2 hc
          have h2 := hc.2
          simp only [respPendingFor, Bool.and_eq_true] at h2
          have hmatch : d0.portType = r2 := by
            have := h2.2
            simpa using this
          have h1 : awaitingFreeSlot s r2 = true := hc.1
          rw [← hmatch] at h1
          exact hfs h1

theorem inv_dequeue {s s' : WQ} {pr : Bool} {d : Option DeferredPacket}
    {f : List Resp} (hI : Inv s) (h : dequeue s pr = .ok (s', d, f)) :
    Inv s' := by
  unfold dequeue at h
  split at h
  · simp at h
  · exact inv_deliverAttempt hI h

theorem inv_recvRespRetry {s s' : WQ} {pr : Bool} {d : Option DeferredPacket}
    {f : List Resp} (hI : Inv s) (h : recvRespRetry s pr = .ok (s', d, f)) :
    Inv s' := by
  unfold recvRespRetry at h
  split at h
  · simp at h
  · refine inv_deliverAttempt ?_ h
    refine ⟨hI.1, ?_, ?_⟩
    · intro hc
      cases hc
    · intro r2 hc
      have h2 := hc.2
      simp [respPendingFor] at h2

theorem inv_stepN {s s' : WQ} {e : Event} {ns : List Notif}
    (hI : Inv s) (h : stepN s e = .ok (s', ns)) : Inv s' := by
  cases e with
  | submitE now req =>
    simp only [stepN] at h
    cases hsub : submit s now req with
    | error v => rw [hsub] at h; simp [Except.map] at h
    | ok o =>
      rw [hsub] at h
      simp only [Except.map, Except.ok.injEq, Prod.mk.injEq] at h
      obtain ⟨h1, -⟩ := h
      subst h1
      exact inv_submit hI hsub
  | releaseE =>
    simp only [stepN] at h
    simp only [Except.ok.injEq, Prod.mk.injEq] at h
    obtain ⟨h1, -⟩ := h
    subst h1
    exact inv_release hI
  | dequeueE pr =>
    simp only [stepN] at h
    cases hdq : dequeue s pr with
    | error v => rw [hdq] at h; simp [Except.map] at h
    | ok o =>
      rw [hdq] at h
      simp only [Except.map, Except.ok.injEq, Prod.mk.injEq] at h
      obtain ⟨h1, -⟩ := h
      subst h1
      exact inv_dequeue hI (by rw [hdq])
  | respRetryE pr =>
    simp only [stepN] at h
    cases hdq : recvRespRetry s pr with
    | error v => rw [hdq] at h; simp [Except.map] at h
    | ok o =>
      rw [hdq] at h
      simp only [Except.map, Except.ok.injEq, Prod.mk.injEq] at h
      obtain ⟨h1, -⟩ := h
      subst h1
      exact inv_recvRespRetry hI (by rw [hdq])

theorem inv_runN {es : List Event} :
    ∀ {s s' : WQ} {ns : List Notif},
      Inv s → runN s es = .ok (s', ns) → Inv s' := by
  induction es with
  | nil =>
    intro s s' ns hI h
    simp only [runN, Except.ok.injEq, Prod.mk.injEq] at h
    obtain ⟨h1, -⟩ := h
    subst h1
    exact hI
  | cons e rest ih =>
    intro s s' ns hI h
    unfold runN at h
    cases hst : stepN s e with
    | error v => rw [hst] at h; simp at h
    | ok o =>
      obtain ⟨s1, ns1⟩ := o
      rw [hst] at h
      dsimp only at h
      cases hrn : runN s1 rest with
      | error v => rw [hrn] at h; simp at h
      | ok o2 =>
        obtain ⟨s2, ns2⟩ := o2
        rw [hrn] at h
        dsimp only at h
        simp only [Except.ok.injEq, Prod.mk.injEq] at h
        obtain ⟨h1, -⟩ := h
        subst h1
        exact ih (inv_stepN hI hst) hrn

theorem inv_init (size latency : Nat) : Inv (init size latency) := by
  refine ⟨⟨?_, ?_, ?_⟩, ?_, ?_⟩
  · simp [init]
  · simp [init]
  · simp [init]
  · intro hc
    cases hc
  · intro r hc
    have h2 := hc.2
    simp [respPendingFor, init] at h2

theorem inv_reachable {s : WQ} (h : Reachable s) : Inv s := by
  obtain ⟨size, latency, es, out, hrun⟩ := h
  exact inv_runN (inv_init size latency) hrun

theorem submit_ok_cases {s s' : WQ} {now : Nat} {req : Req} {r : SubmitResult}
    {f : List Resp} (h : submit s now req = .ok (s', r, f)) :
    (s.isBusy = true ∧ r = .rejected ∧ f = [] ∧
      ((req.portType = .PushPortType ∧ s' = { s with retryPush := true }) ∨
       (req.portType = .PopPortType ∧ s' = { s with retryPop := true }))) ∨
    (s.isBusy = false ∧ r = .rejected ∧ f = s.pendingDelete.toList ∧
      ((req.portType = .PushPortType ∧
         s' = { s with pendingDelete := none, retryPush := true }) ∨
       (req.portType = .PopPortType ∧
         s' = { s with pendingDelete := none, retryPop := true }))) ∨
    (s.isBusy = false ∧ r = .accepted ∧ f = s.pendingDelete.toList ∧
      ((∃ t, req = .pushReq t ∧ s.isFull = false ∧
         s' = { s with pendingDelete := none,
                       workQ := s.workQ ++ [t % 2 ^ 32], pushes := s.pushes + 1,
                       isEmpty := false,
                       isFull := decide ((s.workQ ++ [t % 2 ^ 32]).length = s.size),
                       isBusy := true,
                       packetQueue := s.packetQueue ++
                         [⟨now + s.latency, .pushOk, .PushPortType⟩],
                       releaseAt := some (now + s.latency) }) ∨
       (∃ tok rest, req = .popReq ∧ s.isEmpty = false ∧ s.workQ = tok :: rest ∧
         s' = { s with pendingDelete := none, workQ := rest,
                       pops := s.pops + 1,
                       isFull := false, isEmpty := decide (rest = []),
                       isBusy := true,
                       packetQueue := s.packetQueue ++
                         [⟨now + s.latency, .popData tok, .PopPortType⟩],
                       releaseAt := some (now + s.latency) }))) := by
  unfold submit at h
  by_cases hb : s.isBusy = true
  · rw [if_pos hb] at h
    cases hset : setAwaitingFreeSlot s req.portType with
    | error v => rw [hset] at h; simp [Except.map] at h
    | ok s1 =>
      rw [hset] at h
      simp only [Except.map, Except.ok.injEq, Prod.mk.injEq] at h
      obtain ⟨h1, h2, h3⟩ := h
      subst h1
      obtain ⟨-, -, hcase⟩ := setAwait_ok_shape hset
      left
      exact ⟨hb, h2.symm, h3.symm, hcase.imp
        (fun hc => ⟨hc.1, hc.2⟩) (fun hc => ⟨hc.1, hc.2⟩)⟩
  · rw [if_neg hb] at h
    rw [Bool.not_eq_true] at hb
    cases req with
    | pushReq t =>
      dsimp only at h
      cases htp : tryPush { s with pendingDelete := none } t with
      | none =>
        rw [htp] at h
        cases hset : setAwaitingFreeSlot { s with pendingDelete := none }
            .PushPortType with
        | error v => rw [hset] at h; simp [Except.map] at h
        | ok s1 =>
          rw [hset] at h
          simp only [Except.map, Except.ok.injEq, Prod.mk.injEq] at h
          obtain ⟨h1, h2, h3⟩ := h
          subst h1
          obtain ⟨-, -, hcase⟩ := setAwait_ok_shape hset
          right; left
          refine ⟨hb, h2.symm, h3.symm, ?_⟩
          rcases hcase with ⟨-, hs1⟩ | ⟨hcon, -⟩
          · left
            exact ⟨rfl, hs1⟩
          · cases hcon
      | some s1 =>
        rw [htp] at h
        dsimp only at h
        simp only [Except.ok.injEq, Prod.mk.injEq] at h
        obtain ⟨h1, h2, h3⟩ := h
        subst h1
        obtain ⟨hful, hs1⟩ := tryPush_some_shape htp
        subst hs1
        right; right
        exact ⟨hb, h2.symm, h3.symm, Or.inl ⟨t, rfl, hful, rfl⟩⟩
    | popReq =>
      dsimp only at h
      cases htp : tryPop { s with pendingDelete := none } with
      | none =>
        rw [htp] at h
        cases hset : setAwaitingFreeSlot { s with pendingDelete := none }
            .PopPortType with
        | error v => rw [hset] at h; simp [Except.map] at h
        | ok s1 =>
          rw [hset] at h
          simp only [Except.map, Except.ok.injEq, Prod.mk.injEq] at h
          obtain ⟨h1, h2, h3⟩ := h
          subst h1
          obtain ⟨-, -, hcase⟩ := setAwait_ok_shape hset
          right; left
          refine ⟨hb, h2.symm, h3.symm, ?_⟩
          rcases hcase with ⟨hcon, -⟩ | ⟨-, hs1⟩
          · cases hcon
          · right
            exact ⟨rfl, hs1⟩
      | some ts1 =>
        obtain ⟨tok, s1⟩ := ts1
        rw [htp] at h
        dsimp only at h
        simp only [Except.ok.injEq, Prod.mk.injEq] at h
        obtain ⟨h1, h2, h3⟩ := h
        subst h1
        obtain ⟨hemp, rest, hq, hs1⟩ := tryPop_some_shape htp
        subst hs1
        right; right
        exact ⟨hb, h2.symm, h3.symm, Or.inr ⟨tok, rest, rfl, hemp, hq, rfl⟩⟩

theorem deliverAttempt_ok_cases {s s' : WQ} {pr : Bool}
    {dout : Option DeferredPacket} {f : List Resp}
    (h : deliverAttempt s pr = .ok (s', dout, f)) :
    ∃ d rest, s.packetQueue = d :: rest ∧
      ((pr = true ∧ dout = some d ∧ f = s.pendingDelete.toList ∧
         s' = { s with packetQueue := rest, retryResp := false,
                       pendingDelete := some d.pkt }) ∨
       (pr = false ∧ dout = none ∧ f = [] ∧
         awaitingFreeSlot s d.portType = false ∧
         s' = { s with retryResp := true })) := by
  unfold deliverAttempt at h
  cases hpq : s.packetQueue with
  | nil => rw [hpq] at h; simp at h
  | cons d0 rest =>
    rw [hpq] at h
    dsimp only at h
    refine ⟨d0, rest, rfl, ?_⟩
    by_cases hpr : pr = true
    · rw [if_pos hpr] at h
      simp only [Except.ok.injEq, Prod.mk.injEq] at h
      obtain ⟨h1, h2, h3⟩ := h
      left
      exact ⟨hpr, h2.symm, h3.symm, h1.symm⟩
    · rw [if_neg hpr] at h
      by_cases hfs : awaitingFreeSlot s d0.portType = true
      · rw [if_pos hfs] at h
        simp at h
      · rw [if_neg hfs] at h
        simp only [Except.ok.injEq, Prod.mk.injEq] at h
        obtain ⟨h1, h2, h3⟩ := h
        right
        exact ⟨Bool.not_eq_true pr ▸ hpr, h2.symm, h3.symm,
          Bool.not_eq_true _ ▸ hfs, h1.symm⟩

theorem tryPush_of_not_full {s : WQ} {t : Nat} (hful : s.isFull = false) :
    tryPush s t = some { s with workQ := s.workQ ++ [t % 2 ^ 32],
                                pushes := s.pushes + 1, isEmpty := false,
                                isFull := decide ((s.workQ ++ [t % 2 ^ 32]).length = s.size) } := by
  simp [tryPush, hful]

theorem tryPop_of_cons {s : WQ} {tok : Nat} {rest : List Nat}
    (hemp : s.isEmpty = false) (hq : s.workQ = tok :: rest) :
    tryPop s = some (tok, { s with workQ := rest, pops := s.pops + 1,
                                   isFull := false,
                                   isEmpty := decide (rest = []) }) := by
  simp [tryPop, hemp, hq]

theorem setAwait_push_ok {s : WQ} (h1 : s.retryPush = false)
    (h2 : respPendingFor s .PushPortType = false) :
    setAwaitingFreeSlot s .PushPortType = .ok { s with retryPush := true } := by
  simp [setAwaitingFreeSlot, awaitingFreeSlot, h1, h2]

theorem setAwait_pop_ok {s : WQ} (h1 : s.retryPop = false)
    (h2 : respPendingFor s .PopPortType = false) :
    setAwaitingFreeSlot s .PopPortType = .ok { s with retryPop := true } := by
  simp [setAwaitingFreeSlot, awaitingFreeSlot, h1, h2]

theorem submit_busy_push_rejects {s : WQ} {now t : Nat} (hb : s.isBusy = true)
    (h1 : s.retryPush = false) (h2 : respPendingFor s .PushPortType = false) :
    submit s now (Req.pushReq t) =
      .ok ({ s with retryPush := true }, .rejected, []) := by
  unfold submit
  rw [if_pos hb, show Req.portType (Req.pushReq t) = .PushPortType from rfl,
    setAwait_push_ok h1 h2]
  rfl

theorem submit_busy_pop_rejects {s : WQ} {now : Nat} (hb : s.isBusy = true)
    (h1 : s.retryPop = false) (h2 : respPendingFor s .PopPortType = false) :
    submit s now Req.popReq =
      .ok ({ s with retryPop := true }, .rejected, []) := by
  unfold submit
  rw [if_pos hb, show Req.portType Req.popReq = .PopPortType from rfl,
    setAwait_pop_ok h1 h2]
  rfl

theorem submit_push_accepts {s : WQ} {now t : Nat}
    (hb : s.isBusy = false) (hful : s.isFull = false) :
    submit s now (Req.pushReq t) =
      .ok ({ s with pendingDelete := none,
                    workQ := s.workQ ++ [t % 2 ^ 32], pushes := s.pushes + 1,
                    isEmpty := false,
                    isFull := decide ((s.workQ ++ [t % 2 ^ 32]).length = s.size),
                    isBusy := true,
                    packetQueue := s.packetQueue ++
                      [⟨now + s.latency, .pushOk, .PushPortType⟩],
                    releaseAt := some (now + s.latency) },
           .accepted, s.pendingDelete.toList) := by
  unfold submit
  rw [if_neg (by simp [hb])]
  dsimp only
  rw [tryPush_of_not_full
    (show ({ s with pendingDelete := none } : WQ).isFull = false from hful)]

theorem submit_pop_accepts {s : WQ} {now tok : Nat} {rest : List Nat}
    (hb : s.isBusy = false) (hemp : s.isEmpty = false)
    (hq : s.workQ = tok :: rest) :
    submit s now Req.popReq =
      .ok ({ s with pendingDelete := none, workQ := rest, pops := s.pops + 1,
                    isFull := false, isEmpty := decide (rest = []),
                    isBusy := true,
                    packetQueue := s.packetQueue ++
                      [⟨now + s.latency, .popData tok, .PopPortType⟩],
                    releaseAt := some (now + s.latency) },
           .accepted, s.pendingDelete.toList) := by
  unfold submit
  rw [if_neg (by simp [hb])]
  dsimp only
  rw [tryPop_of_cons
    (show ({ s with pendingDelete := none } : WQ).isEmpty = false from hemp)
    (show ({ s with pendingDelete := none } : WQ).workQ = tok :: rest from hq)]

theorem submit_push_full_rejects {s : WQ} {now t : Nat} (hb : s.isBusy = false)
    (hful : s.isFull = true) (h1 : s.retryPush = false)
    (h2 : respPendingFor s .PushPortType = false) :
    submit s now (Req.pushReq t) =
      .ok ({ s with pendingDelete := none, retryPush := true }, .rejected,
           s.pendingDelete.toList) := by
  unfold submit
  rw [if_neg (by simp [hb])]
  dsimp only
  rw [show tryPush { s with pendingDelete := none } t = none from
    tryPush_none_iff.mpr hful]
  rw [setAwait_push_ok
    (show ({ s with pendingDelete := none } : WQ).retryPush = false from h1)
    (show respPendingFor { s with pendingDelete := none } .PushPortType = false
      from h2)]
  rfl

theorem submit_pop_empty_rejects {s : WQ} {now : Nat} (hb : s.isBusy = false)
    (hemp : s.isEmpty = true) (h1 : s.retryPop = false)
    (h2 : respPendingFor s .PopPortType = false) :
    submit s now Req.popReq =
      .ok ({ s with pendingDelete := none, retryPop := true }, .rejected,
           s.pendingDelete.toList) := by
  unfold submit
  rw [if_neg (by simp [hb])]
  dsimp only
  rw [show tryPop { s with pendingDelete := none } = none from
    tryPop_none_iff.mpr (Or.inl hemp)]
  rw [setAwait_pop_ok
    (show ({ s with pendingDelete := none } : WQ).retryPop = false from h1)
    (show respPendingFor { s with pendingDelete := none } .PopPortType = false
      from h2)]
  rfl

theorem submit_keeps_retryPush {s s' : WQ} {now : Nat} {req : Req}
    {r : SubmitResult} {f : List Resp}
    (h : submit s now req = .ok (s', r, f)) (hp : s.retryPush = true) :
    s'.retryPush = true := by
  rcases submit_ok_cases h with ⟨-, -, -, hc⟩ | ⟨-, -, -, hc⟩ | ⟨-, -, -, hc⟩
  · rcases hc with ⟨-, hs⟩ | ⟨-, hs⟩ <;> subst hs <;> simp [hp]
  · rcases hc with ⟨-, hs⟩ | ⟨-, hs⟩ <;> subst hs <;> simp [hp]
  · rcases hc with ⟨t, -, -, hs⟩ | ⟨tok, rest, -, -, -, hs⟩ <;> subst hs <;>
      simp [hp]

theorem deliverAttempt_keeps_retryPush {s s' : WQ} {pr : Bool}
    {dout : Option DeferredPacket} {f : List Resp}
    (h : deliverAttempt s pr = .ok (s', dout, f)) :
    s'.retryPush = s.retryPush := by
  obtain ⟨d, rest, hpq, hc⟩ := deliverAttempt_ok_cases h
  rcases hc with ⟨-, -, -, hs⟩ | ⟨-, -, -, -, hs⟩ <;> subst hs <;> rfl

theorem stepN_keeps_retryPush {s s' : WQ} {e : Event} {ns : List Notif}
    (hne : e ≠ Event.releaseE) (hp : s.retryPush = true)
    (h : stepN s e = .ok (s', ns)) :
    s'.retryPush = true ∧ Notif.retryN .PushPortType ∉ ns := by
  cases e with
  | submitE now req =>
    simp only [stepN] at h
    cases hsub : submit s now req with
    | error v => rw [hsub] at h; simp [Except.map] at h
    | ok o =>
      obtain ⟨s1, r1, f1⟩ := o
      rw [hsub] at h
      simp only [Except.map, Except.ok.injEq, Prod.mk.injEq] at h
      obtain ⟨h1, h2⟩ := h
      subst h1
      subst h2
      refine ⟨submit_keeps_retryPush hsub hp, ?_⟩
      simp
  | releaseE => exact absurd rfl hne
  | dequeueE pr =>
    simp only [stepN] at h
    unfold dequeue at h
    split at h
    · simp [Except.map] at h
    · cases hda : deliverAttempt s pr with
      | error v => rw [hda] at h; simp [Except.map] at h
      | ok o =>
        obtain ⟨s1, d1, f1⟩ := o
        rw [hda] at h
        simp only [Except.map, Except.ok.injEq, Prod.mk.injEq] at h
        obtain ⟨h1, h2⟩ := h
        subst h1
        subst h2
        refine ⟨(deliverAttempt_keeps_retryPush hda).trans hp, ?_⟩
        simp
  | respRetryE pr =>
    simp only [stepN] at h
    unfold recvRespRetry at h
    split at h
    · simp [Except.map] at h
    · cases hda : deliverAttempt { s with retryResp := false } pr with
      | error v => rw [hda] at h; simp [Except.map] at h
      | ok o =>
        obtain ⟨s1, d1, f1⟩ := o
        rw [hda] at h
        simp only [Except.map, Except.ok.injEq, Prod.mk.injEq] at h
        obtain ⟨h1, h2⟩ := h
        subst h1
        subst h2
        refine ⟨(deliverAttempt_keeps_retryPush hda).trans hp, ?_⟩
        simp

theorem runN_keeps_retryPush {es : List Event}
    (hnr : ∀ e ∈ es, e ≠ Event.releaseE) :
    ∀ {s s' : WQ} {ns : List Notif}, s.retryPush = true →
      runN s es = .ok (s', ns) →
      s'.retryPush = true ∧ Notif.retryN .PushPortType ∉ ns := by
  induction es with
  | nil =>
    intro s s' ns hp h
    simp only [runN, Except.ok.injEq, Prod.mk.injEq] at h
    obtain ⟨h1, h2⟩ := h
    subst h1
    subst h2
    exact ⟨hp, by simp⟩
  | cons e rest ih =>
    intro s s' ns hp h
    unfold runN at h
    cases hst : stepN s e with
    | error v => rw [hst] at h; simp at h
    | ok o =>
      obtain ⟨s1, ns1⟩ := o
      rw [hst] at h
      dsimp only at h
      cases hrn : runN s1 rest with
      | error v => rw [hrn] at h; simp at h
      | ok o2 =>
        obtain ⟨s2, ns2⟩ := o2
        rw [hrn] at h
        dsimp only at h
        simp only [Except.ok.injEq, Prod.mk.injEq] at h
        obtain ⟨h1, h2⟩ := h
        subst h1
        subst h2
        obtain ⟨hp1, hn1⟩ := stepN_keeps_retryPush (hnr e (by simp)) hp hst
        obtain ⟨hp2, hn2⟩ := ih (fun e2 he2 => hnr e2 (by simp [he2])) hp1 hrn
        exact ⟨hp2, by
          simp only [List.mem_append]
          rintro (hc | hc)
          · exact hn1 hc
          · exact hn2 hc⟩

theorem release_emits_push {s : WQ} (hp : s.retryPush = true) :
    WorkQueuePort_e.PushPortType ∈ (release s).2 := by
  simp [release, hp]

theorem submit_accepted_iff {s : WQ} {now : Nat} {req : Req} :
    (∃ s1 f, submit s now req = .ok (s1, .accepted, f)) ↔
      (s.isBusy = false ∧ eligibleFifo s req = true) := by
  constructor
  · rintro ⟨s1, f, h⟩
    rcases submit_ok_cases h with ⟨-, hr, -⟩ | ⟨-, hr, -⟩ | ⟨hb, -, -, hcase⟩
    · cases hr
    · cases hr
    · refine ⟨hb, ?_⟩
      rcases hcase with ⟨t, hreq, hful, -⟩ | ⟨tok, rest, hreq, hemp, hq, -⟩
      · subst hreq
        simp [eligibleFifo, hful]
      · subst hreq
        simp [eligibleFifo, hemp, hq]
  · rintro ⟨hb, hel⟩
    cases req with
    | pushReq t =>
      have hful : s.isFull = false := by
        simpa [eligibleFifo] using hel
      exact ⟨_, _, submit_push_accepts hb hful⟩
    | popReq =>
      simp only [eligibleFifo, Bool.and_eq_true, Bool.not_eq_true'] at hel
      obtain ⟨tok, rest, hq⟩ : ∃ tok rest, s.workQ = tok :: rest := by
        cases hq : s.workQ with
        | nil =>
          rw [hq] at hel
          simp at hel
        | cons a l => exact ⟨a, l, rfl⟩
      exact ⟨_, _, submit_pop_accepts hb hel.1 hq⟩

/-- C1: for every reachable state of the work queue, the number of stored
tokens satisfies `0 ≤ length ≤ size`, and the cached empty/full flags always
agree with the length: `isEmpty` is true iff `length = 0` and `isFull` is
true iff `length = size`. -/
theorem C1_capacity_and_flag_invariant (s : WQ) (h : Reachable s) :
    0 ≤ s.workQ.length ∧ s.workQ.length ≤ s.size ∧
      (s.isEmpty = true ↔ s.workQ.length = 0) ∧
      (s.isFull = true ↔ s.workQ.length = s.size) := by
  obtain ⟨hF, -, -⟩ := inv_reachable h
  exact ⟨Nat.zero_le _, hF.1, hF.2.1, hF.2.2⟩

/-- Witness for C1, at the freshly constructed capacity-4 queue. -/
theorem C1_capacity_and_flag_invariant_witness :
    0 ≤ (init 4 10).workQ.length ∧
      (init 4 10).workQ.length ≤ (init 4 10).size ∧
      ((init 4 10).isEmpty = true ↔ (init 4 10).workQ.length = 0) ∧
      ((init 4 10).isFull = true ↔ (init 4 10).workQ.length = (init 4 10).size) :=
  C1_capacity_and_flag_invariant (init 4 10) ⟨4, 10, [], [], rfl⟩

/-- C6: `drain` answers `Drained` immediately if and only if the
deferred-delivery stage is empty and the retry state machine is idle for both
port roles (not busy, no `AwaitingFreeSlot` on either role, and no
`AwaitingRespAck`); otherwise it answers `Draining`. -/
theorem C6_drain_iff (s : WQ) :
    drain s = DrainState.Drained ↔
      (s.packetQueue = [] ∧ s.isBusy = false ∧ s.retryPop = false ∧
        s.retryPush = false ∧ s.retryResp = false) := by
  constructor
  · intro h
    unfold drain at h
    split at h
    · next hc =>
      simp only [Bool.and_eq_true, Bool.not_eq_true'] at hc
      obtain ⟨⟨⟨⟨h5, h4⟩, h3⟩, h2⟩, h1⟩ := hc
      refine ⟨?_, h4, h3, h2, h1⟩
      simpa [List.isEmpty_iff] using h5
    · simp at h
  · rintro ⟨h1, h2, h3, h4, h5⟩
    unfold drain
    rw [if_pos (by simp [h1, h2, h3, h4, h5])]

/-- Witness for C6, exercising both directions at concrete states. -/
theorem C6_drain_iff_witness :
    drain (init 4 10) = DrainState.Drained ∧
      ¬drain exampleAwaitAck = DrainState.Drained :=
  ⟨(C6_drain_iff (init 4 10)).mpr ⟨rfl, rfl, rfl, rfl, rfl⟩,
   fun hc => by
    have := (C6_drain_iff exampleAwaitAck).mp hc
    simpa [exampleAwaitAck] using this.2.2.2.2⟩

/-- C7: in every reachable state, each port role holds at most one
unacknowledged backpressure condition (`AwaitingFreeSlot` or
`AwaitingRespAck`); an operation that would set a second overlapping
condition for the same role — a submission while busy when the role already
waits, or a failed delivery for a role already awaiting a free slot — aborts
with the fatal `overlappingRetry` violation instead of queueing it. -/
theorem C7_single_backpressure_per_role (s : WQ) (h : Reachable s) :
    (∀ r, ¬(awaitingFreeSlot s r = true ∧ respPendingFor s r = true)) ∧
    (∀ now req, s.isBusy = true →
      (awaitingFreeSlot s req.portType = true ∨
        respPendingFor s req.portType = true) →
      submit s now req = .error .overlappingRetry) ∧
    (∀ d rest, s.packetQueue = d :: rest → s.retryResp = false →
      awaitingFreeSlot s d.portType = true →
      dequeue s false = .error .overlappingRetry) := by
  obtain ⟨-, -, hRole⟩ := inv_reachable h
  refine ⟨hRole, ?_, ?_⟩
  · intro now req hb hover
    unfold submit
    rw [if_pos hb, setAwait_error_of hover]
    rfl
  · intro d rest hpq hrr hfs
    unfold dequeue
    rw [if_neg (by simp [hrr])]
    unfold deliverAttempt
    rw [hpq]
    dsimp only
    rw [if_neg (by simp), if_pos hfs]

/-- Witness for C7, at the freshly constructed capacity-4 queue. -/
theorem C7_single_backpressure_per_role_witness :
    (∀ r, ¬(awaitingFreeSlot (init 4 10) r = true ∧
      respPendingFor (init 4 10) r = true)) ∧
    (∀ now req, (init 4 10).isBusy = true →
      (awaitingFreeSlot (init 4 10) req.portType = true ∨
        respPendingFor (init 4 10) req.portType = true) →
      submit (init 4 10) now req = .error .overlappingRetry) ∧
    (∀ d rest, (init 4 10).packetQueue = d :: rest →
      (init 4 10).retryResp = false →
      awaitingFreeSlot (init 4 10) d.portType = true →
      dequeue (init 4 10) false = .error .overlappingRetry) :=
  C7_single_backpressure_per_role (init 4 10) ⟨4, 10, [], [], rfl⟩

/-- C8 counterexample: on a FIFO that already holds an older token, pushing a
token `X` (here 7) and then popping, with no intervening push, yields the
older token 5, not `X`: the claim as stated fails on non-empty queues. -/
theorem C8_roundtrip_counterexample :
    ((tryPush (init 2 5) 5).bind fun s1 =>
      (tryPush s1 7).bind fun s2 => (tryPop s2).map Prod.fst) = some 5 ∧
      (5 : Nat) ≠ 7 := by
  refine ⟨?_, by decide⟩
  decide

/-- C8 (amended): pushing a token `X` into an empty queue and then popping,
with no intervening push, yields `X` unchanged (on a non-empty queue the pop
returns the oldest token instead). -/
theorem C8_roundtrip_from_empty (s : WQ) (X : Nat) (hW : s.workQ = [])
    (hF : s.isFull = false) (hX : X < 2 ^ 32) :
    ((tryPush s X).bind fun s1 => (tryPop s1).map Prod.fst) = some X := by
  rw [tryPush_of_not_full hF]
  rw [Option.some_bind]
  rw [tryPop_of_cons rfl
    (show s.workQ ++ [X % 2 ^ 32] = X % 2 ^ 32 :: [] by simp [hW])]
  have hmod : X % 2 ^ 32 = X := Nat.mod_eq_of_lt hX
  show some (X % 2 ^ 32) = some X
  exact congrArg some hmod

/-- Witness for C8's amended round trip, at a fresh capacity-3 queue. -/
theorem C8_roundtrip_from_empty_witness :
    ((tryPush (init 3 7) 42).bind fun s1 => (tryPop s1).map Prod.fst) =
      some 42 :=
  C8_roundtrip_from_empty (init 3 7) 42 rfl (by decide) (by decide)

/-- C9: staging a deferred entry for an accepted operation never fails — the
deferred-delivery stage is unbounded.  Acceptance of a timing request is
exactly determined by the busy state and the FIFO capacity check, it is
independent of the contents of the staging list, and on acceptance exactly
one staged entry is appended. -/
theorem C9_staging_unbounded (s : WQ) (now : Nat) (req : Req) :
    ((∃ s1 f, submit s now req = .ok (s1, .accepted, f)) ↔
      (s.isBusy = false ∧ eligibleFifo s req = true)) ∧
    (∀ pq, (∃ s1 f, submit { s with packetQueue := pq } now req =
        .ok (s1, .accepted, f)) ↔
      (∃ s1 f, submit s now req = .ok (s1, .accepted, f))) ∧
    (∀ s1 f, submit s now req = .ok (s1, .accepted, f) →
      s1.packetQueue.length = s.packetQueue.length + 1) := by
  refine ⟨submit_accepted_iff, ?_, ?_⟩
  · intro pq
    rw [submit_accepted_iff, submit_accepted_iff]
    exact Iff.rfl
  · intro s1 f h
    rcases submit_ok_cases h with ⟨-, hr, -⟩ | ⟨-, hr, -⟩ | ⟨-, -, -, hcase⟩
    · cases hr
    · cases hr
    · rcases hcase with ⟨t, -, -, hs⟩ | ⟨tok, rest, -, -, -, hs⟩ <;>
        subst hs <;> simp

/-- Witness for C9: a push accepted on a fresh queue via the iff. -/
theorem C9_staging_unbounded_witness :
    ∃ s1 f, submit (init 2 5) 0 (Req.pushReq 3) = .ok (s1, .accepted, f) :=
  (C9_staging_unbounded (init 2 5) 0 (Req.pushReq 3)).1.mpr ⟨rfl, by decide⟩

/-- C2 counterexample: a reachable idle state (capacity-1 queue holding one
token after an accepted and delivered push) in which a timing request
submitted while idle is rejected, does not transition to busy, and stages
nothing — the claim's idle branch fails when the FIFO operation itself is
rejected. -/
theorem C2_submit_counterexample :
    (runN (init 1 5) [Event.submitE 0 (Req.pushReq 42), Event.releaseE,
        Event.dequeueE true]).map
        (fun o => (o.1.isBusy,
          (submit o.1 10 (Req.pushReq 7)).map
            (fun o2 => (o2.1.isBusy, o2.1.packetQueue.length, o2.2.1)))) =
      .ok (false, .ok (false, 0, SubmitResult.rejected)) := by
  rfl

/-- C2 (amended): a timing request submitted while busy (on either role) is
rejected immediately with `AwaitingFreeSlot` recorded for the submitting
role; a request submitted while idle whose FIFO operation succeeds performs
it synchronously, transitions to busy, stages the result with due time
`now + latency` and schedules the release callback at that time; a request
submitted while idle whose FIFO operation is rejected (push on full, pop on
empty) is rejected with `AwaitingFreeSlot` recorded, without transitioning to
busy or staging. -/
theorem C2_submit_protocol (s : WQ) (now : Nat) :
    (∀ req, s.isBusy = true → awaitingFreeSlot s req.portType = false →
      respPendingFor s req.portType = false →
      ∃ s', submit s now req = .ok (s', .rejected, []) ∧
        awaitingFreeSlot s' req.portType = true ∧ s'.workQ = s.workQ ∧
        s'.packetQueue = s.packetQueue ∧ s'.isBusy = true) ∧
    (∀ t, s.isBusy = false → s.isFull = false →
      ∃ s', submit s now (Req.pushReq t) =
          .ok (s', .accepted, s.pendingDelete.toList) ∧
        s'.isBusy = true ∧ s'.workQ = s.workQ ++ [t % 2 ^ 32] ∧
        s'.packetQueue = s.packetQueue ++
          [⟨now + s.latency, .pushOk, .PushPortType⟩] ∧
        s'.releaseAt = some (now + s.latency)) ∧
    (∀ tok rest, s.isBusy = false → s.isEmpty = false →
      s.workQ = tok :: rest →
      ∃ s', submit s now Req.popReq =
          .ok (s', .accepted, s.pendingDelete.toList) ∧
        s'.isBusy = true ∧ s'.workQ = rest ∧
        s'.packetQueue = s.packetQueue ++
          [⟨now + s.latency, .popData tok, .PopPortType⟩] ∧
        s'.releaseAt = some (now + s.latency)) ∧
    (∀ t, s.isBusy = false → s.isFull = true → s.retryPush = false →
      respPendingFor s .PushPortType = false →
      ∃ s', submit s now (Req.pushReq t) =
          .ok (s', .rejected, s.pendingDelete.toList) ∧
        s'.retryPush = true ∧ s'.workQ = s.workQ ∧ s'.isBusy = false ∧
        s'.packetQueue = s.packetQueue) ∧
    (s.isBusy = false → s.isEmpty = true → s.retryPop = false →
      respPendingFor s .PopPortType = false →
      ∃ s', submit s now Req.popReq =
          .ok (s', .rejected, s.pendingDelete.toList) ∧
        s'.retryPop = true ∧ s'.workQ = s.workQ ∧ s'.isBusy = false ∧
        s'.packetQueue = s.packetQueue) := by
  refine ⟨?_, ?_, ?_, ?_, ?_⟩
  · intro req hb h1 h2
    cases req with
    | pushReq t =>
      exact ⟨{ s with retryPush := true },
        submit_busy_push_rejects hb h1 h2, rfl, rfl, rfl, hb⟩
    | popReq =>
      exact ⟨{ s with retryPop := true },
        submit_busy_pop_rejects hb h1 h2, rfl, rfl, rfl, hb⟩
  · intro t hb hful
    exact ⟨_, submit_push_accepts hb hful, rfl, rfl, rfl, rfl⟩
  · intro tok rest hb hemp hq
    exact ⟨_, submit_pop_accepts hb hemp hq, rfl, rfl, rfl, rfl⟩
  · intro t hb hful h1 h2
    exact ⟨_, submit_push_full_rejects hb hful h1 h2, rfl, rfl, hb, rfl⟩
  · intro hb hemp h1 h2
    exact ⟨_, submit_pop_empty_rejects hb hemp h1 h2, rfl, rfl, hb, rfl⟩

/-- Witness for C2's amended protocol: an accepted push on a fresh queue. -/
theorem C2_submit_protocol_witness :
    ∃ s', submit (init 2 5) 0 (Req.pushReq 3) =
        .ok (s', .accepted, (init 2 5).pendingDelete.toList) ∧
      s'.isBusy = true ∧ s'.workQ = (init 2 5).workQ ++ [3 % 2 ^ 32] ∧
      s'.packetQueue = (init 2 5).packetQueue ++
        [⟨0 + (init 2 5).latency, .pushOk, .PushPortType⟩] ∧
      s'.releaseAt = some (0 + (init 2 5).latency) :=
  (C2_submit_protocol (init 2 5) 0).2.1 3 rfl rfl

/-- C4: submitting a push while the queue is full is rejected with the queue
contents unchanged (no token added or lost, counters untouched) and
`AwaitingFreeSlot` recorded for the push role; along every violation-free
continuation that contains no release event, no retry notification reaches
the pusher and the condition stays pending, while the next `release()` does
emit the retry notification to the pusher. -/
theorem C4_full_push_backpressure (s : WQ) (now t : Nat)
    (hful : s.isFull = true) (h1 : s.retryPush = false)
    (h2 : respPendingFor s .PushPortType = false) :
    ∃ s' f, submit s now (Req.pushReq t) = .ok (s', .rejected, f) ∧
      s'.workQ = s.workQ ∧ s'.pushes = s.pushes ∧ s'.retryPush = true ∧
      ∀ es s2 ns, (∀ e ∈ es, e ≠ Event.releaseE) →
        runN s' es = .ok (s2, ns) →
        Notif.retryN .PushPortType ∉ ns ∧ s2.retryPush = true ∧
        WorkQueuePort_e.PushPortType ∈ (release s2).2 := by
  by_cases hb : s.isBusy = true
  · refine ⟨{ s with retryPush := true }, [],
      submit_busy_push_rejects hb h1 h2, rfl, rfl, rfl, ?_⟩
    intro es s2 ns hnr hrun
    obtain ⟨hp2, hn⟩ := runN_keeps_retryPush hnr rfl hrun
    exact ⟨hn, hp2, release_emits_push hp2⟩
  · have hb' : s.isBusy = false := by simpa using hb
    refine ⟨{ s with pendingDelete := none, retryPush := true },
      s.pendingDelete.toList,
      submit_push_full_rejects hb' hful h1 h2, rfl, rfl, rfl, ?_⟩
    intro es s2 ns hnr hrun
    obtain ⟨hp2, hn⟩ := runN_keeps_retryPush hnr rfl hrun
    exact ⟨hn, hp2, release_emits_push hp2⟩

/-- Witness for C4 at a concrete full-queue state, with the empty
continuation: the rejected push leaves the queue unchanged and the very next
release emits the retry to the pusher. -/
theorem C4_full_push_backpressure_witness :
    ∃ s' f, submit exampleFull 10 (Req.pushReq 7) = .ok (s', .rejected, f) ∧
      s'.workQ = [42] ∧ s'.retryPush = true ∧
      WorkQueuePort_e.PushPortType ∈ (release s').2 := by
  obtain ⟨s', f, hsub, hw, -, hr, hcont⟩ :=
    C4_full_push_backpressure exampleFull 10 7 rfl rfl rfl
  obtain ⟨-, -, hrel⟩ := hcont [] s' [] (by simp) rfl
  exact ⟨s', f, hsub, hw, hr, hrel⟩

/-- C5: a delivery attempt that fails because the peer is not ready keeps the
pending entry and sets `AwaitingRespAck`; one subsequent `resumeDelivery`
(`recvRespRetry`) call with a ready peer resends the identical pending entry
and clears the condition; calling `recvRespRetry` with no `AwaitingRespAck`
pending is a fatal protocol violation. -/
theorem C5_resume_delivery (s : WQ) :
    (s.retryResp = false →
      ∀ pr, recvRespRetry s pr = .error .unsolicitedResume) ∧
    (∀ d rest, s.packetQueue = d :: rest → s.retryResp = false →
      awaitingFreeSlot s d.portType = false →
      dequeue s false = .ok ({ s with retryResp := true }, none, []) ∧
      ({ s with retryResp := true } : WQ).packetQueue = s.packetQueue) ∧
    (∀ d rest, s.packetQueue = d :: rest → s.retryResp = true →
      recvRespRetry s true =
        .ok ({ s with packetQueue := rest, retryResp := false,
                      pendingDelete := some d.pkt }, some d,
             s.pendingDelete.toList)) := by
  refine ⟨?_, ?_, ?_⟩
  · intro hrr pr
    unfold recvRespRetry
    rw [if_pos hrr]
  · intro d rest hpq hrr hfs
    refine ⟨?_, rfl⟩
    unfold dequeue
    rw [if_neg (by simp [hrr])]
    unfold deliverAttempt
    rw [hpq]
    dsimp only
    rw [if_neg (by simp), if_neg (by simp [hfs])]
  · intro d rest hpq hrr
    unfold recvRespRetry
    rw [if_neg (by simp [hrr])]
    unfold deliverAttempt
    rw [show ({ s with retryResp := false } : WQ).packetQueue = d :: rest
      from hpq]
    dsimp only
    rw [if_pos rfl]

theorem submit_pendingDelete {s s' : WQ} {now : Nat} {req : Req}
    {r : SubmitResult} {f : List Resp}
    (h : submit s now req = .ok (s', r, f)) :
    (s.isBusy = true ∧ s'.pendingDelete = s.pendingDelete ∧ f = []) ∨
    (s.isBusy = false ∧ s'.pendingDelete = none ∧
      f = s.pendingDelete.toList) := by
  rcases submit_ok_cases h with ⟨hb, -, hf, hc⟩ | ⟨hb, -, hf, hc⟩ |
    ⟨hb, -, hf, hc⟩
  · left
    refine ⟨hb, ?_, hf⟩
    rcases hc with ⟨-, hs⟩ | ⟨-, hs⟩ <;> subst hs <;> rfl
  · right
    refine ⟨hb, ?_, hf⟩
    rcases hc with ⟨-, hs⟩ | ⟨-, hs⟩ <;> subst hs <;> rfl
  · right
    refine ⟨hb, ?_, hf⟩
    rcases hc with ⟨tok0, -, -, hs⟩ | ⟨tok0, rest0, -, -, -, hs⟩ <;>
      subst hs <;> rfl

theorem deliverAttempt_pendingDelete {s s' : WQ} {pr : Bool}
    {dout : Option DeferredPacket} {f : List Resp}
    (h : deliverAttempt s pr = .ok (s', dout, f)) :
    (f = s.pendingDelete.toList ∧
      ∃ d : DeferredPacket, s'.pendingDelete = some d.pkt) ∨
    (s'.pendingDelete = s.pendingDelete ∧ f = []) := by
  obtain ⟨d, rest, hpq, hc⟩ := deliverAttempt_ok_cases h
  rcases hc with ⟨-, -, hf, hs⟩ | ⟨-, -, hf, -, hs⟩
  · left
    subst hs
    exact ⟨hf, d, rfl⟩
  · right
    subst hs
    exact ⟨rfl, hf⟩

/-- C3: along the all-idle driver `runIdleSeq` — every operation submitted
while the state machine is idle, released and delivered before the next
arrives — the delivered entries correspond one-to-one, in order, with the
submitted requests: the i-th delivery originates from the i-th request's
port role and is due at that request's submission time plus the fixed
configured latency. -/
theorem C3_in_order_fixed_latency (s : WQ) (reqs : List (Nat × Req))
    (s' : WQ) (ds : List DeferredPacket) (hpq : s.packetQueue = [])
    (h : runIdleSeq s reqs = some (s', ds)) :
    ds.length = reqs.length ∧
      ∀ i (hi : i < ds.length) (hi2 : i < reqs.length),
        (ds.get ⟨i, hi⟩).tick = (reqs.get ⟨i, hi2⟩).1 + s.latency ∧
        (ds.get ⟨i, hi⟩).portType = (reqs.get ⟨i, hi2⟩).2.portType := by
  induction reqs generalizing s ds with
  | nil =>
    simp only [runIdleSeq, Option.some.injEq, Prod.mk.injEq] at h
    obtain ⟨-, h2⟩ := h
    subst h2
    exact ⟨rfl, fun i hi hi2 => (Nat.not_lt_zero i hi).elim⟩
  | cons p rest ih =>
    obtain ⟨t, req⟩ := p
    unfold runIdleSeq at h
    cases hsub : submit s t req with
    | error v =>
      rw [hsub] at h
      exact Option.noConfusion h
    | ok o =>
      obtain ⟨s1, r1, f1⟩ := o
      cases r1 with
      | rejected =>
        rw [hsub] at h
        exact Option.noConfusion h
      | accepted =>
        rw [hsub] at h
        dsimp only at h
        cases hdq : dequeue (release s1).1 true with
        | error v =>
          rw [hdq] at h
          exact Option.noConfusion h
        | ok o2 =>
          obtain ⟨s3, dopt, f3⟩ := o2
          cases dopt with
          | none =>
            rw [hdq] at h
            exact Option.noConfusion h
          | some d =>
            rw [hdq] at h
            dsimp only at h
            cases hrec : runIdleSeq s3 rest with
            | none =>
              rw [hrec] at h
              exact Option.noConfusion h
            | some o4 =>
              obtain ⟨s4, ds4⟩ := o4
              rw [hrec] at h
              dsimp only at h
              simp only [Option.some.injEq, Prod.mk.injEq] at h
              obtain ⟨h1, h2⟩ := h
              subst h1
              subst h2
              rcases submit_ok_cases hsub with ⟨-, hr, -⟩ | ⟨-, hr, -⟩ |
                ⟨-, -, -, hcase⟩
              · cases hr
              · cases hr
              have hsh : ∃ resp, s1.packetQueue = s.packetQueue ++
                  [⟨t + s.latency, resp, req.portType⟩] ∧
                  s1.latency = s.latency := by
                rcases hcase with ⟨tok0, hreq, -, hs1⟩ |
                  ⟨tok0, rest0, hreq, -, -, hs1⟩ <;> subst hreq <;>
                  subst hs1 <;> exact ⟨_, rfl, rfl⟩
              obtain ⟨resp, hpq1, hlat1⟩ := hsh
              unfold dequeue at hdq
              split at hdq
              · exact Except.noConfusion hdq
              · obtain ⟨d0, rest0, hpq0, hc⟩ := deliverAttempt_ok_cases hdq
                rcases hc with ⟨-, hdout, -, hs3⟩ | ⟨hpr, -, -⟩
                · have hpq0' : s1.packetQueue = d0 :: rest0 := hpq0
                  rw [hpq1, hpq] at hpq0'
                  simp only [List.nil_append] at hpq0'
                  injection hpq0' with hd0 hrest0
                  subst hd0
                  subst hrest0
                  injection hdout with hd
                  subst hd
                  have hpq3 : s3.packetQueue = [] := by rw [hs3]
                  have hlat3 : s3.latency = s.latency := by
                    rw [hs3]
                    exact hlat1
                  obtain ⟨hlen, hidx⟩ := ih _ _ hpq3 hrec
                  simp only [hlat3] at hidx
                  refine ⟨by simp [hlen], ?_⟩
                  intro i hi hi2
                  cases i with
                  | zero => exact ⟨rfl, rfl⟩
                  | succ j =>
                    exact hidx j (Nat.lt_of_succ_lt_succ hi)
                      (Nat.lt_of_succ_lt_succ hi2)
                · exact Bool.noConfusion hpr

/-- Witness for C3: three concrete requests driven through the all-idle
scenario on a fresh capacity-2 queue with latency 5. -/
theorem C3_in_order_fixed_latency_witness :
    ∃ s' ds, runIdleSeq (init 2 5)
        [(0, Req.pushReq 1), (10, Req.pushReq 2), (20, Req.popReq)] =
        some (s', ds) ∧
      ds.length = 3 ∧
      (∀ i (hi : i < ds.length)
        (hi2 : i < ([(0, Req.pushReq 1), (10, Req.pushReq 2),
          (20, Req.popReq)] : List (Nat × Req)).length),
        (ds.get ⟨i, hi⟩).tick =
          (([(0, Req.pushReq 1), (10, Req.pushReq 2),
            (20, Req.popReq)] : List (Nat × Req)).get ⟨i, hi2⟩).1 +
            (init 2 5).latency ∧
        (ds.get ⟨i, hi⟩).portType =
          (([(0, Req.pushReq 1), (10, Req.pushReq 2),
            (20, Req.popReq)] : List (Nat × Req)).get ⟨i, hi2⟩).2.portType) := by
  cases hrun : runIdleSeq (init 2 5)
      [(0, Req.pushReq 1), (10, Req.pushReq 2), (20, Req.popReq)] with
  | none => exact Option.noConfusion hrun
  | some o =>
    obtain ⟨sfin, ds⟩ := o
    obtain ⟨hlen, hidx⟩ :=
      C3_in_order_fixed_latency (init 2 5) _ sfin ds rfl hrun
    refine ⟨sfin, ds, rfl, ?_, hidx⟩
    exact hlen.trans rfl

/-- C10: the component retains at most one previously-sent response at a time
(the `pendingDelete` buffer holds zero or one packets, mirroring the
`unique_ptr` in the source); on every violation-free transition the
previously retained response is either freed — emitted as a `freedN`
notification — or remains the unique retained one, and an access performed
while idle always frees it, so retained responses never accumulate. -/
theorem C10_retained_response (s : WQ) :
    (∀ e s' ns, stepN s e = .ok (s', ns) →
      s'.pendingDelete.toList.length ≤ 1 ∧
      (∀ old, s.pendingDelete = some old →
        Notif.freedN old ∈ ns ∨ s'.pendingDelete = some old)) ∧
    (∀ now req s' ns old, s.isBusy = false → s.pendingDelete = some old →
      stepN s (.submitE now req) = .ok (s', ns) →
      Notif.freedN old ∈ ns ∧ s'.pendingDelete = none) := by
  have hlen : ∀ s1 : WQ, s1.pendingDelete.toList.length ≤ 1 := by
    intro s1
    cases s1.pendingDelete <;> simp
  refine ⟨?_, ?_⟩
  · intro e s' ns h
    refine ⟨hlen s', ?_⟩
    intro old hold
    cases e with
    | submitE now req =>
      simp only [stepN] at h
      cases hsub : submit s now req with
      | error v => rw [hsub] at h; simp [Except.map] at h
      | ok o =>
        obtain ⟨s1, r1, f1⟩ := o
        rw [hsub] at h
        simp only [Except.map, Except.ok.injEq, Prod.mk.injEq] at h
        obtain ⟨h1, h2⟩ := h
        subst h1
        subst h2
        rcases submit_pendingDelete hsub with ⟨-, hpd, -⟩ | ⟨-, hpd, hf⟩
        · right
          rw [hpd, hold]
        · left
          subst hf
          rw [hold]
          simp
    | releaseE =>
      simp only [stepN, Except.ok.injEq, Prod.mk.injEq] at h
      obtain ⟨h1, -⟩ := h
      subst h1
      right
      exact hold
    | dequeueE pr =>
      simp only [stepN] at h
      unfold dequeue at h
      split at h
      · simp [Except.map] at h
      · cases hda : deliverAttempt s pr with
        | error v => rw [hda] at h; simp [Except.map] at h
        | ok o =>
          obtain ⟨s1, d1, f1⟩ := o
          rw [hda] at h
          simp only [Except.map, Except.ok.injEq, Prod.mk.injEq] at h
          obtain ⟨h1, h2⟩ := h
          subst h1
          subst h2
          rcases deliverAttempt_pendingDelete hda with ⟨hf, -⟩ | ⟨hpd, -⟩
          · left
            subst hf
            rw [hold]
            simp
          · right
            rw [hpd, hold]
    | respRetryE pr =>
      simp only [stepN] at h
      unfold recvRespRetry at h
      split at h
      · simp [Except.map] at h
      · cases hda : deliverAttempt { s with retryResp := false } pr with
        | error v => rw [hda] at h; simp [Except.map] at h
        | ok o =>
          obtain ⟨s1, d1, f1⟩ := o
          rw [hda] at h
          simp only [Except.map, Except.ok.injEq, Prod.mk.injEq] at h
          obtain ⟨h1, h2⟩ := h
          subst h1
          subst h2
          rcases deliverAttempt_pendingDelete hda with ⟨hf, -⟩ | ⟨hpd, -⟩
          · left
            subst hf
            rw [show ({ s with retryResp := false } : WQ).pendingDelete =
              some old from hold]
            simp
          · right
            rw [hpd]
            exact hold
  · intro now req s' ns old hb hold h
    simp only [stepN] at h
    cases hsub : submit s now req with
    | error v => rw [hsub] at h; simp [Except.map] at h
    | ok o =>
      obtain ⟨s1, r1, f1⟩ := o
      rw [hsub] at h
      simp only [Except.map, Except.ok.injEq, Prod.mk.injEq] at h
      obtain ⟨h1, h2⟩ := h
      subst h1
      subst h2
      rcases submit_pendingDelete hsub with ⟨hb2, -, -⟩ | ⟨-, hpd, hf⟩
      · rw [hb] at hb2
        cases hb2
      · subst hf
        refine ⟨?_, hpd⟩
        rw [hold]
        simp

/-- Witness for C10: an access at a concrete idle state with a retained
response frees it and retains nothing. -/
theorem C10_retained_response_witness :
    ∃ s' ns, stepN exampleFull (.submitE 10 (Req.pushReq 7)) = .ok (s', ns) ∧
      Notif.freedN Resp.pushOk ∈ ns ∧ s'.pendingDelete = none := by
  cases hst : stepN exampleFull (.submitE 10 (Req.pushReq 7)) with
  | error v => exact Except.noConfusion hst
  | ok o =>
    obtain ⟨s', ns⟩ := o
    obtain ⟨hm, hn⟩ :=
      (C10_retained_response exampleFull).2 10 (Req.pushReq 7) s' ns
        Resp.pushOk rfl rfl hst
    exact ⟨s', ns, rfl, hm, hn⟩

/-- Witness for C5: at a concrete awaiting-acknowledgement state the resume
resends the identical pending entry, and at a fresh queue with nothing
pending the resume is the fatal violation. -/
theorem C5_resume_delivery_witness :
    recvRespRetry exampleAwaitAck true =
      .ok ({ exampleAwaitAck with packetQueue := [], retryResp := false,
                                  pendingDelete := some Resp.pushOk },
           some ⟨5, .pushOk, .PushPortType⟩,
           exampleAwaitAck.pendingDelete.toList) ∧
    recvRespRetry (init 4 10) true = .error .unsolicitedResume :=
  ⟨(C5_resume_delivery exampleAwaitAck).2.2 ⟨5, .pushOk, .PushPortType⟩ []
      rfl rfl,
   (C5_resume_delivery (init 4 10)).1 rfl true⟩

end WorkQueue
